import Mathlib

/-!
Verification of the highlands_conference_ml_workshop notebooks.

The repository contains two MNIST classifier notebooks (an equinox/optax
variant and a from-scratch variant) and a neural-ODE notebook.  This file
gives a shallow embedding of the data model and operations those notebooks
define -- forward pass, cross-entropy loss, the manual gradient-descent
optimiser, batch drawing, one-hot encoding, confusion-matrix accumulation
and the ODE notebook's per-class grouping -- and proves the testable
properties stated about them.

Real-valued code (the forward pass and the loss) is embedded over `ℝ`;
discrete bookkeeping (indices, labels, counts) is embedded over `ℕ`/`ℚ` so
that concrete instances evaluate.
-/

/-- `np.mean` over a two-axis `[B, C]` array: the sum of all entries divided
by the number of entries (the cardinality of the full index set). -/
noncomputable def npMean {B C : ℕ} (M : Fin B → Fin C → ℝ) : ℝ :=
  (∑ p : Fin B × Fin C, M p.1 p.2) / ((Finset.univ : Finset (Fin B × Fin C)).card : ℝ)

/-- `linear_layer(x, weights, bias) = np.matmul(weights, x) + bias`
(from-scratch notebook). -/
noncomputable def linear_layer {m n : ℕ} (x : Fin n → ℝ)
    (weights : Fin m → Fin n → ℝ) (bias : Fin m → ℝ) : Fin m → ℝ :=
  fun i => (∑ j, weights i j * x j) + bias i

/-- `relu_activation(x) = np.maximum(x, 0)` (from-scratch notebook). -/
def relu_activation {n : ℕ} (x : Fin n → ℝ) : Fin n → ℝ :=
  fun i => max (x i) 0

/-- `softmax_activation(x) = np.exp(x) / np.sum(np.exp(x))`
(from-scratch notebook; `jax.nn.softmax` in the equinox notebook). -/
noncomputable def softmax_activation {n : ℕ} (x : Fin n → ℝ) : Fin n → ℝ :=
  fun i => Real.exp (x i) / ∑ j, Real.exp (x j)

/-- The two-layer perceptron of both classifier notebooks: weight matrices
and bias vectors for the hidden and output linear layers. -/
structure SimpleNetwork (isz hsz osz : ℕ) where
  w1 : Fin hsz → Fin isz → ℝ
  b1 : Fin hsz → ℝ
  w2 : Fin osz → Fin hsz → ℝ
  b2 : Fin osz → ℝ

/-- `SimpleNetwork.__call__`: linear, relu, linear, softmax
(identical composition in both classifier notebooks). -/
noncomputable def SimpleNetwork.forward {isz hsz osz : ℕ}
    (net : SimpleNetwork isz hsz osz) (x : Fin isz → ℝ) : Fin osz → ℝ :=
  softmax_activation (linear_layer (relu_activation (linear_layer x net.w1 net.b1)) net.w2 net.b2)

/-- `jax.vmap`: apply a function along the leading batch axis. -/
def vmap {B : ℕ} {α β : Type} (f : α → β) (x : Fin B → α) : Fin B → β :=
  fun b => f (x b)

/-- The classification loss of both classifier notebooks:
`-np.mean(y * np.log(y_predicted))` with `y_predicted = jax.vmap(model)(x)`. -/
noncomputable def loss {isz hsz osz B : ℕ} (model : SimpleNetwork isz hsz osz)
    (x : Fin B → Fin isz → ℝ) (y : Fin B → Fin osz → ℝ) : ℝ :=
  let y_predicted := vmap model.forward x;
  - npMean (fun b c => y b c * Real.log (y_predicted b c))

/-- C1: for every batch of inputs `x : [B, 784]` and one-hot targets
`y : [B, 10]`, the classification loss equals the negative mean of the
elementwise product `y * log(prediction)` over both the batch axis and the
class axis, i.e. `-(1 / (B * 10))` times the sum over all batch and class
entries -- dividing by `batch_size * num_classes`, not by `batch_size`
alone. -/
theorem loss_divides_by_batch_times_classes {hsz B : ℕ}
    (model : SimpleNetwork 784 hsz 10)
    (x : Fin B → Fin 784 → ℝ) (y : Fin B → Fin 10 → ℝ) :
    loss model x y =
      -(1 / ((B : ℝ) * 10)) *
        ∑ b : Fin B, ∑ c : Fin 10, y b c * Real.log (model.forward (x b) c) := by
  unfold loss npMean vmap
  dsimp only
  rw [Fintype.sum_prod_type]
  simp only [Finset.card_univ, Fintype.card_prod, Fintype.card_fin, Nat.cast_mul,
    Nat.cast_ofNat]
  ring

/-- C2: the classifier's output is a probability vector: every entry of the
softmax output is nonnegative and the ten entries sum to `1` (in exact real
arithmetic). -/
theorem forward_is_probability_vector {isz hsz : ℕ}
    (net : SimpleNetwork isz hsz 10) (x : Fin isz → ℝ) :
    (∀ c, 0 ≤ net.forward x c) ∧ (∑ c, net.forward x c) = 1 := by
  have hZ : 0 < ∑ j, Real.exp ((linear_layer (relu_activation
      (linear_layer x net.w1 net.b1)) net.w2 net.b2) j) :=
    Finset.sum_pos (fun j _ => Real.exp_pos _) Finset.univ_nonempty
  constructor
  · intro c
    exact div_nonneg (Real.exp_nonneg _) hZ.le
  · unfold SimpleNetwork.forward softmax_activation
    rw [← Finset.sum_div, div_self hZ.ne']

/-- Modelled from the spec: `jax.nn.one_hot(L, num_classes=10, axis=-1)` is
an external library call (the notebooks only invoke it); per the spec it is
a vector representation of a categorical label with a single 1 at the
label's index and 0 elsewhere, over 10 classes. -/
def one_hot (L : ℕ) : List ℚ :=
  (List.range 10).map (fun c => if c = L then (1 : ℚ) else 0)

/-- Helper for `argmax`: scan the remaining entries, keeping the index of
the best value seen so far and replacing it only on a strictly larger
value, so the first maximum wins. -/
def argmaxAux {α : Type} [LinearOrder α] : List α → ℕ → ℕ → α → ℕ
  | [], _, bi, _ => bi
  | v :: rest, i, bi, bv =>
    if bv < v then argmaxAux rest (i + 1) i v else argmaxAux rest (i + 1) bi bv

/-- Modelled from the spec: `np.argmax` is an external library call (the
notebooks only invoke it); it returns the index of the first occurrence of
the maximum value (`0` on the empty list, where numpy would raise). -/
def argmax {α : Type} [LinearOrder α] : List α → ℕ
  | [] => 0
  | v :: rest => argmaxAux rest 1 0 v

/-- C6: for every label `L` in `[0, 9]`, the one-hot encoding of `L` is a
10-length row whose entry at index `L` is `1` and whose other entries are
`0` (so exactly one entry equals `1`), and decoding by arg-max returns `L`;
hence one-hot followed by arg-max is the identity on `[0, 9]`. -/
theorem one_hot_argmax_id : ∀ L : ℕ, L < 10 →
    (one_hot L).length = 10 ∧
    (one_hot L).count 1 = 1 ∧
    (one_hot L).getD L 0 = 1 ∧
    (∀ c : ℕ, c < 10 → c ≠ L → (one_hot L).getD c 0 = 0) ∧
    argmax (one_hot L) = L := by
  decide

/-- Witness for C6 at the concrete label `3`. -/
theorem one_hot_argmax_id_witness :
    3 < 10 ∧
    ((one_hot 3).length = 10 ∧
      (one_hot 3).count 1 = 1 ∧
      (one_hot 3).getD 3 0 = 1 ∧
      (∀ c : ℕ, c < 10 → c ≠ 3 → (one_hot 3).getD c 0 = 0) ∧
      argmax (one_hot 3) = 3) :=
  ⟨by decide, one_hot_argmax_id 3 (by decide)⟩

/-- The result of `argmaxAux` is either the incoming best index or one of
the scanned positions, all of which stay below `n` when the incoming best
index and the whole scan range do. -/
theorem argmaxAux_lt {α : Type} [LinearOrder α] :
    ∀ (l : List α) (i bi : ℕ) (bv : α) (n : ℕ),
      bi < n → i + l.length ≤ n → argmaxAux l i bi bv < n := by
  intro l
  induction l with
  | nil =>
    intro i bi bv n hbi _
    simpa [argmaxAux] using hbi
  | cons v rest ih =>
    intro i bi bv n hbi hlen
    simp only [List.length_cons] at hlen
    unfold argmaxAux
    split
    · exact ih (i + 1) i v n (by omega) (by omega)
    · exact ih (i + 1) bi bv n hbi (by omega)

/-- `argmax` of a nonempty list is an index into the list. -/
theorem argmax_lt_length {α : Type} [LinearOrder α] (v : List α) (hv : v ≠ []) :
    argmax v < v.length := by
  cases v with
  | nil => exact absurd rfl hv
  | cons a l =>
    simp only [argmax, List.length_cons]
    exact argmaxAux_lt l 1 0 a (l.length + 1) (by omega) (by omega)

/-- The model's 10-length output row for one test image, as the list
`np.argmax` is taken over in the evaluator cell. -/
noncomputable def output_list {isz hsz osz : ℕ}
    (net : SimpleNetwork isz hsz osz) (x : Fin isz → ℝ) : List ℝ :=
  (List.finRange osz).map (fun c => net.forward x c)

/-- C10: confusion-matrix accumulation never indexes out of bounds --
assuming the true test label `t` is in `[0, 9]`, the predicted label
(arg-max over the model's 10-length output) is also in `[0, 9]`, so the
increment at `[t, predicted]` falls inside the 10x10 matrix. -/
theorem predicted_label_in_range {isz hsz : ℕ}
    (net : SimpleNetwork isz hsz 10) (x : Fin isz → ℝ) (t : ℕ) (ht : t < 10) :
    t < 10 ∧ argmax (output_list net x) < 10 := by
  refine ⟨ht, ?_⟩
  have hlen : (output_list net x).length = 10 := by
    simp [output_list]
  have hne : output_list net x ≠ [] := by
    intro h
    rw [h] at hlen
    simp at hlen
  have := argmax_lt_length (output_list net x) hne
  omega

/-- All-zero network used to instantiate witnesses. -/
noncomputable def net0 : SimpleNetwork 1 1 10 :=
  ⟨fun _ _ => 0, fun _ => 0, fun _ _ => 0, fun _ => 0⟩

/-- Witness for C10 at a concrete network, input and true label. -/
theorem predicted_label_in_range_witness :
    3 < 10 ∧ (3 < 10 ∧ argmax (output_list net0 (fun _ => 0)) < 10) :=
  ⟨by decide, predicted_label_in_range net0 (fun _ => 0) 3 (by decide)⟩

/-- Elementwise `p - learn_rate * dm` on one parameter array
(the body of the `optimiser` loop, from-scratch notebook). -/
def array_sub_scaled (p dm : List ℚ) (learn_rate : ℚ) : List ℚ :=
  List.zipWith (fun a b => a - learn_rate * b) p dm

/-- `optimiser(model_parameters, gradient, learn_rate)` (from-scratch
notebook): for each `i, dm` in `enumerate(gradient)`, do
`model_parameters[i] -= learn_rate * dm`, and return the parameter list.
Entries of `model_parameters` beyond the gradient's length are untouched;
a gradient longer than the parameter list would raise an `IndexError` in
the source, so that branch returns the exhausted parameter list. -/
def optimiser : List (List ℚ) → List (List ℚ) → ℚ → List (List ℚ)
  | ps, [], _ => ps
  | [], _ :: _, _ => []
  | p :: ps, dm :: dms, learn_rate =>
    array_sub_scaled p dm learn_rate :: optimiser ps dms learn_rate

/-- The all-zero gradient tree mirroring the shape of a parameter list
(the spec's structural invariant: gradient and parameter trees are always
shape-isomorphic). -/
def zero_grad_of (ps : List (List ℚ)) : List (List ℚ) :=
  ps.map (fun a => a.map (fun _ => (0 : ℚ)))

/-- Subtracting a zero gradient array scaled by any learning rate leaves
one parameter array unchanged. -/
theorem array_sub_scaled_zero (p : List ℚ) (learn_rate : ℚ) :
    array_sub_scaled p (p.map (fun _ => (0 : ℚ))) learn_rate = p := by
  induction p with
  | nil => rfl
  | cons a rest ih =>
    simp only [array_sub_scaled, List.map_cons, List.zipWith_cons_cons, mul_zero, sub_zero]
    exact congrArg (a :: ·) ih

/-- C8: the manual gradient-descent optimiser applied to any parameter
list with the all-zero gradient tree of the same shape returns the
parameters unchanged, for every learning rate (each update is
`parameter -= learn_rate * gradient`). -/
theorem optimiser_zero_grad_id (params : List (List ℚ)) (learn_rate : ℚ) :
    optimiser params (zero_grad_of params) learn_rate = params := by
  induction params with
  | nil => rfl
  | cons p ps ih =>
    simp only [zero_grad_of, List.map_cons, optimiser]
    rw [array_sub_scaled_zero]
    exact congrArg (p :: ·) (by simpa [zero_grad_of] using ih)

/-- Modelled from the spec: `jr.fold_in(key, i)` is an external library
call mixing the step index into the key; modelled as any fixed
deterministic mixing function. -/
def jr_fold_in (key i : ℕ) : ℕ :=
  key * 1000003 + i

/-- Modelled from the spec: `jr.choice(key, pool, (k,), replace=False)` is
an external library call drawing `k` entries of `pool` without
replacement; modelled as taking the first `k` entries of a key-dependent
permutation (a rotation) of the pool. -/
def jr_choice (key : ℕ) (pool : List ℕ) (k : ℕ) : List ℕ :=
  (pool.rotate key).take k

/-- The index draw of one training step (both training loops):
`train_key = jr.fold_in(key, i)` followed by
`inds = jr.choice(train_key, np.arange(N), (k,), replace=False)`,
with `N = 60000` and `k = BATCH_SIZE` in the classifier notebooks. -/
def batch_inds (key i N k : ℕ) : List ℕ :=
  jr_choice (jr_fold_in key i) (List.range N) k

/-- C5: for every training step `i` and every requested batch size `k` not
exceeding the training-pool size `N`, the drawn batch index list contains
no duplicate indices and has length exactly `k` (sampling without
replacement). -/
theorem batch_inds_nodup_length (key i N k : ℕ) (hk : k ≤ N) :
    (batch_inds key i N k).Nodup ∧ (batch_inds key i N k).length = k := by
  constructor
  · exact ((List.take_sublist _ _).nodup
      (List.nodup_rotate.mpr (List.nodup_range N)))
  · rw [batch_inds, jr_choice, List.length_take, List.length_rotate,
      List.length_range]
    exact min_eq_left hk
/-- Witness for C5 at a concrete key, step, pool size and batch size. -/
theorem batch_inds_nodup_length_witness :
    3 ≤ 10 ∧ ((batch_inds 7 0 10 3).Nodup ∧ (batch_inds 7 0 10 3).length = 3) :=
  ⟨by decide, batch_inds_nodup_length 7 0 10 3 (by decide)⟩

/-- `x_train[y_train == c]` (ODE notebook): the training samples whose
label equals `c`, in order. -/
def group_class {α : Type} (xs : List α) (ys : List ℕ) (c : ℕ) : List α :=
  ((xs.zip ys).filter (fun p => p.2 == c)).map Prod.fst

/-- `minlength = np.min(np.array(lengths))` (ODE notebook): the minimum
over the ten per-class group sizes. -/
def min_class_count {α : Type} (xs : List α) (ys : List ℕ) : ℕ :=
  (Finset.range 10).inf' (by decide) (fun c => (group_class xs ys c).length)

/-- `x_train_grouped[c] = x_train_grouped[c][:minlength]` (ODE notebook):
the per-class group truncated to the minimum class count. -/
def x_train_grouped {α : Type} (xs : List α) (ys : List ℕ) (c : ℕ) : List α :=
  (group_class xs ys c).take (min_class_count xs ys)

/-- C9: after the ODE notebook's grouping step, for every class `c` in
`[0, 9]`, the group for class `c` contains exactly the minimum class
count of samples -- samples beyond that count are silently dropped and no
error is raised for imbalance. -/
theorem x_train_grouped_length_min {α : Type}
    (xs : List α) (ys : List ℕ) (c : ℕ) (hc : c < 10) :
    (x_train_grouped xs ys c).length = min_class_count xs ys := by
  rw [x_train_grouped, List.length_take]
  exact min_eq_left (Finset.inf'_le _ (Finset.mem_range.mpr hc))

/-- Witness for C9 at a concrete dataset covering all ten classes. -/
theorem x_train_grouped_length_min_witness :
    2 < 10 ∧
      (x_train_grouped [100, 101, 102, 103, 104, 105, 106, 107, 108, 109, 110, 111]
          [0, 1, 2, 3, 4, 5, 6, 7, 8, 9, 0, 2] 2).length =
        min_class_count [100, 101, 102, 103, 104, 105, 106, 107, 108, 109, 110, 111]
          [0, 1, 2, 3, 4, 5, 6, 7, 8, 9, 0, 2] :=
  ⟨by decide,
    x_train_grouped_length_min
      [100, 101, 102, 103, 104, 105, 106, 107, 108, 109, 110, 111]
      [0, 1, 2, 3, 4, 5, 6, 7, 8, 9, 0, 2] 2 (by decide)⟩

/-- One evaluator-loop iteration:
`confusion_matrix.at[t, p].set(confusion_matrix[t, p] + 1)` -- the cell at
`[t, p]` is replaced by its old value plus one, all other cells are kept. -/
def cmUpdate (cm : ℕ → ℕ → ℕ) (t p : ℕ) : ℕ → ℕ → ℕ :=
  fun i j => if i = t ∧ j = p then cm t p + 1 else cm i j

/-- The evaluator cell: starting from `np.zeros((10,10))`, loop over the
test set and increment the cell at `[y_test[i], y_test_predictions[i]]`
(each sample given as the pair (true label, predicted label)). -/
def confusion_matrix (samples : List (ℕ × ℕ)) : ℕ → ℕ → ℕ :=
  samples.foldl (fun cm tp => cmUpdate cm tp.1 tp.2) (fun _ _ => 0)

/-- The sum of row `r` of the 10x10 matrix. -/
def rowSum (cm : ℕ → ℕ → ℕ) (r : ℕ) : ℕ :=
  ∑ j in Finset.range 10, cm r j

/-- The sum of all entries of the 10x10 matrix. -/
def totalSum (cm : ℕ → ℕ → ℕ) : ℕ :=
  ∑ i in Finset.range 10, rowSum cm i

/-- The number of test samples whose true label is `r`. -/
def true_label_count (samples : List (ℕ × ℕ)) (r : ℕ) : ℕ :=
  samples.countP (fun tp => tp.1 == r)

/-- `cmUpdate` adds one at exactly the updated cell. -/
theorem cmUpdate_apply (cm : ℕ → ℕ → ℕ) (t p i j : ℕ) :
    cmUpdate cm t p i j = cm i j + if (t, p) = (i, j) then 1 else 0 := by
  unfold cmUpdate
  by_cases h : i = t ∧ j = p
  · obtain ⟨h1, h2⟩ := h
    subst h1
    subst h2
    simp
  · have h' : ¬ ((t, p) = (i, j)) := fun hc =>
      h ⟨(congrArg Prod.fst hc).symm, (congrArg Prod.snd hc).symm⟩
    simp [h, h']

/-- Folding the evaluator loop over any starting matrix adds, at each
cell, the number of samples equal to that cell's index pair. -/
theorem confusion_foldl_apply :
    ∀ (samples : List (ℕ × ℕ)) (cm : ℕ → ℕ → ℕ) (i j : ℕ),
      samples.foldl (fun cm tp => cmUpdate cm tp.1 tp.2) cm i j
        = cm i j + samples.count (i, j) := by
  intro samples
  induction samples with
  | nil =>
    intro cm i j
    simp
  | cons tp rest ih =>
    intro cm i j
    simp only [List.foldl_cons, List.count_cons, beq_iff_eq]
    rw [ih, cmUpdate_apply]
    simp only [Prod.mk.eta]
    ring

/-- Each cell of the confusion matrix counts the samples with exactly that
(true, predicted) pair. -/
theorem confusion_matrix_apply (samples : List (ℕ × ℕ)) (i j : ℕ) :
    confusion_matrix samples i j = samples.count (i, j) := by
  rw [confusion_matrix, confusion_foldl_apply]
  simp

/-- Summing per-cell counts along one row gives the count of samples with
that true label, provided every predicted label is below 10. -/
theorem sum_count_row (samples : List (ℕ × ℕ)) (r : ℕ)
    (hpred : ∀ tp ∈ samples, tp.2 < 10) :
    (∑ j in Finset.range 10, samples.count (r, j)) = true_label_count samples r := by
  induction samples with
  | nil => simp [true_label_count]
  | cons tp rest ih =>
    have hp : tp.2 < 10 := hpred tp (by simp)
    have hrest : ∀ q ∈ rest, q.2 < 10 := fun q hq => hpred q (by simp [hq])
    simp only [List.count_cons, beq_iff_eq, true_label_count, List.countP_cons]
    rw [Finset.sum_add_distrib]
    rw [show (∑ j in Finset.range 10, rest.count (r, j)) = true_label_count rest r from
      ih hrest]
    rw [true_label_count]
    congr 1
    cases tp with
    | mk a b =>
      simp only [Prod.mk.injEq]
      by_cases hr : a = r
      · subst hr
        simp only [true_and]
        rw [Finset.sum_ite_eq (Finset.range 10) b (fun _ => 1)]
        simp [Finset.mem_range.mpr hp]
      · simp [hr]

/-- Summing the per-row true-label counts over the ten rows recovers the
number of samples, provided every true label is below 10. -/
theorem sum_true_label_count (samples : List (ℕ × ℕ))
    (htrue : ∀ tp ∈ samples, tp.1 < 10) :
    (∑ i in Finset.range 10, true_label_count samples i) = samples.length := by
  induction samples with
  | nil => simp [true_label_count]
  | cons tp rest ih =>
    have ht : tp.1 < 10 := htrue tp (by simp)
    have hrest : ∀ q ∈ rest, q.1 < 10 := fun q hq => htrue q (by simp [hq])
    simp only [true_label_count, List.countP_cons, beq_iff_eq, List.length_cons]
    rw [Finset.sum_add_distrib]
    rw [show (∑ i in Finset.range 10, rest.countP (fun q => q.1 == i)) = rest.length from
      ih hrest]
    congr 1
    rw [Finset.sum_ite_eq (Finset.range 10) tp.1 (fun _ => 1)]
    simp [Finset.mem_range.mpr ht]

/-- C7: after evaluating over a test set whose true and predicted labels
are all in `[0, 9]`, each row `r` of the 10x10 confusion matrix sums to
the number of test samples whose true label is `r`, and the sum of all
entries equals the test-set size (each sample increments exactly one cell,
at `[true_label, predicted_label]`, starting from the all-zero matrix). -/
theorem confusion_matrix_row_and_total_sums (samples : List (ℕ × ℕ)) (r : ℕ)
    (htrue : ∀ tp ∈ samples, tp.1 < 10) (hpred : ∀ tp ∈ samples, tp.2 < 10)
    (_hr : r < 10) :
    rowSum (confusion_matrix samples) r = true_label_count samples r ∧
      totalSum (confusion_matrix samples) = samples.length := by
  have hrow : ∀ s, rowSum (confusion_matrix samples) s = true_label_count samples s := by
    intro s
    rw [rowSum, Finset.sum_congr rfl (fun j _ => confusion_matrix_apply samples s j)]
    exact sum_count_row samples s hpred
  refine ⟨hrow r, ?_⟩
  rw [totalSum, Finset.sum_congr rfl (fun i _ => hrow i)]
  exact sum_true_label_count samples htrue

/-- Witness for C7 at a concrete three-sample test set and row `0`. -/
theorem confusion_matrix_row_and_total_sums_witness :
    (∀ tp ∈ [((0 : ℕ), (1 : ℕ)), (0, 1), (3, 2)], tp.1 < 10) ∧
      (∀ tp ∈ [((0 : ℕ), (1 : ℕ)), (0, 1), (3, 2)], tp.2 < 10) ∧
      (0 : ℕ) < 10 ∧
      (rowSum (confusion_matrix [(0, 1), (0, 1), (3, 2)]) 0 =
          true_label_count [(0, 1), (0, 1), (3, 2)] 0 ∧
        totalSum (confusion_matrix [(0, 1), (0, 1), (3, 2)]) = 3) :=
  ⟨by decide, by decide, by decide,
    confusion_matrix_row_and_total_sums [(0, 1), (0, 1), (3, 2)] 0
      (by decide) (by decide) (by decide)⟩

/-- The from-scratch notebook's model object as a Python object: the two
parameter fields `self.weights` and `self.bias`, each a list of parameter
arrays (arrays flattened to rational lists here; the mutation behaviour
does not depend on array rank). -/
structure PyModel where
  weights : List (List ℚ)
  bias : List (List ℚ)
deriving DecidableEq

/-- The side effect of the from-scratch `loss` body on the model object:
`model.weights = [model_params[0], model_params[1]]` and
`model.bias = [model_params[2], model_params[3]]` executed before the
forward pass.  Returns the model object's state after the call, `none`
when the parameter list has fewer than four entries (a Python
`IndexError`). -/
def loss_set_model_fields (model : PyModel) (model_params : List (List ℚ)) :
    Option PyModel :=
  match model, model_params with
  | _, p0 :: p1 :: p2 :: p3 :: _ => some { weights := [p0, p1], bias := [p2, p3] }
  | _, _ => none

/-- C3 counterexample: the claim that no operation other than the
optimizer update changes the model's parameter fields is false -- calling
the from-scratch `loss` on a model whose current weights differ from the
passed parameter list leaves the model object with changed parameter
fields. -/
theorem loss_changes_model_fields_cx :
    loss_set_model_fields ⟨[[1], [1]], [[0], [0]]⟩ [[2], [1], [0], [0]] ≠
      some ⟨[[1], [1]], [[0], [0]]⟩ := by
  decide

/-- C3 amended: the loss-and-gradient computation of the from-scratch
notebook also reassigns the model's parameter fields -- after a `loss`
call with a parameter list of at least four arrays, the model object's
weights are the first two and its biases the last two of the passed
arrays, regardless of the fields' previous values (so the fields change
whenever the passed parameters differ from them). -/
theorem loss_sets_model_fields_to_params (model : PyModel)
    (p0 p1 p2 p3 : List ℚ) (rest : List (List ℚ)) :
    loss_set_model_fields model (p0 :: p1 :: p2 :: p3 :: rest) =
      some ⟨[p0, p1], [p2, p3]⟩ := rfl

/-- The external library and data surface the equinox training pipeline
consumes, kept abstract: PRNG key construction, splitting and folding,
layer initialisation, the without-replacement batch index draw, the
dataset, reverse-mode gradients and the adam optimiser.  `Grad` is the
gradient tree type and `OptState` the optimiser's internal state type. -/
structure TrainEnv where
  Grad : Type
  OptState : Type
  prngKey : ℕ → ℕ
  split2 : ℕ → ℕ × ℕ
  fold_in : ℕ → ℕ → ℕ
  linear_init : (nIn nOut : ℕ) → ℕ → (Fin nOut → Fin nIn → ℝ) × (Fin nOut → ℝ)
  choice_batch : ℕ → Fin 32 → ℕ
  x_train_flat : ℕ → Fin 784 → ℝ
  y_train_1hot : ℕ → Fin 10 → ℝ
  adam_init : SimpleNetwork 784 100 10 → OptState
  grad_of : SimpleNetwork 784 100 10 → (Fin 32 → Fin 784 → ℝ) →
    (Fin 32 → Fin 10 → ℝ) → Grad
  adam_update : Grad → OptState → SimpleNetwork 784 100 10 →
    SimpleNetwork 784 100 10 × OptState

/-- `SimpleNetwork.__init__` (equinox notebook): split the key in two and
initialise the two linear layers from the sub-keys. -/
def init_network (env : TrainEnv) (key : ℕ) : SimpleNetwork 784 100 10 :=
  let ks := env.split2 key;
  let l1 := env.linear_init 784 100 ks.1;
  let l2 := env.linear_init 100 10 ks.2;
  ⟨l1.1, l1.2, l2.1, l2.2⟩

/-- `eqx.apply_updates(model, updates)`: add the update tree (which
mirrors the parameter tree) elementwise to the parameters. -/
noncomputable def apply_updates {isz hsz osz : ℕ}
    (m u : SimpleNetwork isz hsz osz) : SimpleNetwork isz hsz osz :=
  ⟨fun a b => m.w1 a b + u.w1 a b, fun a => m.b1 a + u.b1 a,
    fun a b => m.w2 a b + u.w2 a b, fun a => m.b2 a + u.b2 a⟩

/-- `make_step` (equinox notebook): compute loss and gradient, ask the
optimiser for the update tree and new optimiser state, apply the update,
and return the new model, new optimiser state and the loss value. -/
noncomputable def make_step (env : TrainEnv) (model : SimpleNetwork 784 100 10)
    (opt_state : env.OptState) (X : Fin 32 → Fin 784 → ℝ)
    (Y : Fin 32 → Fin 10 → ℝ) :
    SimpleNetwork 784 100 10 × env.OptState × ℝ :=
  let loss_value := loss model X Y;
  let grad := env.grad_of model X Y;
  let upd := env.adam_update grad opt_state model;
  (apply_updates model upd.1, upd.2, loss_value)

/-- The loss recorded after step 0 of the equinox training run:
`key = jr.PRNGKey(seed)`, `nn = SimpleNetwork(784, 100, 10, key)`, then
one pass of the training loop body at `i = 0` -- fold the step index into
the key, draw the batch of 32, slice inputs and targets, and run
`make_step` (learning rate and optimiser details live inside the adam
fields of the environment). -/
noncomputable def loss_at_step0 (env : TrainEnv) (seed : ℕ) : ℝ :=
  let key := env.prngKey seed;
  let model := init_network env key;
  let opt_state := env.adam_init model;
  let train_key := env.fold_in key 0;
  let inds := env.choice_batch train_key;
  let x := fun b => env.x_train_flat (inds b);
  let y := fun b => env.y_train_1hot (inds b);
  (make_step env model opt_state x y).2.2

/-- C4: training is deterministic under a fixed seed -- for any two runs
of the pipeline (over the same dataset and library primitives) whose
seeds are equal, the loss recorded after step 0 is identical: the seeded
batch draw, forward pass and gradient step are all functions of the seed
alone. -/
theorem loss_step0_deterministic (env : TrainEnv) (seed1 seed2 : ℕ)
    (hseed : seed1 = seed2) :
    loss_at_step0 env seed1 = loss_at_step0 env seed2 := by
  rw [hseed]

/-- A concrete instantiation of the library-and-data environment, used to
witness C4. -/
noncomputable def triv_env : TrainEnv where
  Grad := Unit
  OptState := Unit
  prngKey := id
  split2 := fun k => (k, k)
  fold_in := fun k i => k + i
  linear_init := fun _ _ _ => (fun _ _ => 0, fun _ => 0)
  choice_batch := fun _ b => b.val
  x_train_flat := fun _ _ => 0
  y_train_1hot := fun _ _ => 0
  adam_init := fun _ => ()
  grad_of := fun _ _ _ => ()
  adam_update := fun _ _ _ => (⟨fun _ _ => 0, fun _ => 0, fun _ _ => 0, fun _ => 0⟩, ())

/-- Witness for C4 at the source's seed `12345`. -/
theorem loss_step0_deterministic_witness :
    12345 = 12345 ∧ loss_at_step0 triv_env 12345 = loss_at_step0 triv_env 12345 :=
  ⟨rfl, loss_step0_deterministic triv_env 12345 12345 rfl⟩
